import Mathlib

/-!
Shallow embedding of `src/py_speed.py`, a micro-benchmark that fills a
Python dictionary with `NUMBER_OF_KEYS` sequential integer keys and
random integer values drawn by `random.randint(1, RANGE - 1)`.

Modelling decisions:
* Python integers are `Int` (keys and values), counts are `Nat`.
* `time.time()` is a clock read; the program performs four reads in
  order (indices 0..3), modelled by a function `clock : Nat → Int`
  giving the timestamp of each read in ticks of an arbitrary
  resolution; elapsed times are differences of such timestamps.
* Randomness is modelled by an entropy stream `g : Nat → Nat`; the
  i-th call to `random.randint` consumes `g i`.  `random.randint a b`
  returns an integer uniformly in the closed interval `[a, b]` and
  raises `ValueError` when `a > b`; we embed it as
  `some (a + draw % (b - a + 1))` when `a ≤ b` and `none` otherwise,
  which realises exactly the values `[a, b]` as `draw` varies.
* A Python `dict` is an insertion-ordered association list; the
  statement `d[k] = v` replaces the value of an existing key in place
  and otherwise appends the new pair at the end.
* A list comprehension is sequential effectful mapping: the first
  failing element aborts the whole comprehension (`optMap`).
* Each `print` call emits one line on standard output; we record the
  payload of every line in order in an `OutLine` list.
-/

/-- `NUMBER_OF_KEYS = int(1e7)` from `py_speed.py`. -/
def NUMBER_OF_KEYS : Nat := 10000000

/-- `RANGE = 1000` from `py_speed.py`. -/
def RANGE : Nat := 1000

/-- Embedding of `random.randint(lo, hi)`: an integer in the closed
interval `[lo, hi]`, determined here by the entropy value `draw`;
`none` models the `ValueError` raised when `lo > hi` (empty range). -/
def randint (lo hi : Int) (draw : Nat) : Option Int :=
  if lo ≤ hi then some (lo + (draw : Int) % (hi - lo + 1)) else none

/-- Sequential effectful map, embedding a Python list comprehension
whose body may raise: the first failure aborts the comprehension. -/
def optMap (f : α → Option β) : List α → Option (List β)
  | [] => some []
  | a :: l => do
    let b ← f a
    let bs ← optMap f l
    pure (b :: bs)

/-- Embedding of `keys = list(range(N))`. -/
def keysOf (N : Nat) : List Int :=
  (List.range N).map Int.ofNat

/-- Embedding of `values = [random.randint(1, RANGE - 1) for _ in range(N)]`,
with range constant `R` and entropy stream `g`. -/
def genValues (N R : Nat) (g : Nat → Nat) : Option (List Int) :=
  optMap (fun i => randint 1 ((R : Int) - 1) (g i)) (List.range N)

/-- Embedding of the Python `dict` assignment `d[k] = v`: replace the
value of an existing key in place, otherwise append the pair. -/
def dictInsert (d : List (Int × Int)) (k v : Int) : List (Int × Int) :=
  if d.any (fun p => p.1 == k) then
    d.map (fun p => if p.1 == k then (k, v) else p)
  else
    d ++ [(k, v)]

/-- The local variables of `main` that the insertion loop touches:
the two generated sequences and the dictionary being filled. -/
structure LoopState where
  keys : List Int
  values : List Int
  dictionary : List (Int × Int)
  deriving Repr, DecidableEq

/-- Embedding of a Python `dict` read `d[k]` (and of `k in d`): the
value bound to `k`, or `none` when `k` is absent.  Keys in our
association lists are unique, so scanning for the first match agrees
with the hash-table lookup. -/
def dictFind (d : List (Int × Int)) (k : Int) : Option Int :=
  match d with
  | [] => none
  | (a, b) :: rest => if a = k then some b else dictFind rest k

/-- One iteration of the insertion loop: `dictionary[keys[i]] = values[i]`.
Out-of-range indexing would raise `IndexError`, modelled by `none`. -/
def insertStep (s : LoopState) (i : Nat) : Option LoopState := do
  let k ← s.keys[i]?
  let v ← s.values[i]?
  pure { s with dictionary := dictInsert s.dictionary k v }

/-- The insertion loop `for i in range(N): dictionary[keys[i]] = values[i]`. -/
def insertLoop (s : LoopState) (N : Nat) : Option LoopState :=
  (List.range N).foldl (fun acc i => acc.bind (fun t => insertStep t i)) (some s)

/-- Payload of one line printed to standard output by `main`. -/
inductive OutLine where
  | attempt (n : Nat)
  | opTook (seconds : Int)
  | dictSize (size : Nat)
  | totalTime (seconds : Int)
  deriving Repr, DecidableEq

/-- Result of a completed run of `main`: the final local state and the
lines printed to standard output, in order. -/
structure RunOutput where
  state : LoopState
  lines : List OutLine
  deriving Repr, DecidableEq

/-- Embedding of `main()` from `py_speed.py`, generalised over the key
count `N`, the range constant `R`, the entropy stream `g` and the
clock `clock`; `none` models an uncaught exception. -/
def pyMain (N R : Nat) (g : Nat → Nat) (clock : Nat → Int) : Option RunOutput := do
  let line1 := OutLine.attempt N
  let start := clock 0
  let keys := keysOf N
  let values ← genValues N R g
  let s ← insertLoop ⟨keys, values, []⟩ N
  let time_spent := clock 2 - clock 1
  pure ⟨s, [line1, OutLine.opTook time_spent,
            OutLine.dictSize s.dictionary.length,
            OutLine.totalTime (clock 3 - start)]⟩

/-- The dictionary produced by inserting the first `n` pairs:
key `i` bound to `values[i]`, in key order. -/
def dictOf (values : List Int) (n : Nat) : List (Int × Int) :=
  (List.range n).map (fun (i : Nat) => ((i : Int), values.getD i 0))

/-! ### Lemmas about `optMap` -/

theorem optMap_length {α β : Type} {f : α → Option β} {l : List α} {ys : List β}
    (h : optMap f l = some ys) : ys.length = l.length := by
  induction l generalizing ys with
  | nil =>
    simp only [optMap, Option.some.injEq] at h
    subst h; rfl
  | cons a l ih =>
    simp only [optMap, Option.bind_eq_bind] at h
    cases hfa : f a with
    | none => rw [hfa] at h; simp at h
    | some b =>
      rw [hfa] at h
      cases hml : optMap f l with
      | none => rw [hml] at h; simp at h
      | some bs =>
        rw [hml] at h
        simp only [Option.some_bind, Option.pure_def, Option.some.injEq] at h
        subst h
        simp [ih hml]

theorem optMap_isSome {α β : Type} {f : α → Option β} {l : List α}
    (h : ∀ a ∈ l, (f a).isSome) : ∃ ys, optMap f l = some ys := by
  induction l with
  | nil => exact ⟨[], rfl⟩
  | cons a l ih =>
    obtain ⟨b, hb⟩ := Option.isSome_iff_exists.mp (h a (by simp))
    obtain ⟨bs, hbs⟩ := ih (fun x hx => h x (by simp [hx]))
    exact ⟨b :: bs, by simp [optMap, hb, hbs]⟩

theorem optMap_mem {α β : Type} {f : α → Option β} {l : List α} {ys : List β}
    (h : optMap f l = some ys) {y : β} (hy : y ∈ ys) : ∃ a ∈ l, f a = some y := by
  induction l generalizing ys with
  | nil =>
    simp only [optMap, Option.some.injEq] at h
    subst h; simp at hy
  | cons a l ih =>
    simp only [optMap, Option.bind_eq_bind] at h
    cases hfa : f a with
    | none => rw [hfa] at h; simp at h
    | some b =>
      rw [hfa] at h
      cases hml : optMap f l with
      | none => rw [hml] at h; simp at h
      | some bs =>
        rw [hml] at h
        simp only [Option.some_bind, Option.pure_def, Option.some.injEq] at h
        subst h
        rcases List.mem_cons.mp hy with rfl | hmem
        · exact ⟨a, by simp, hfa⟩
        · obtain ⟨x, hx, hfx⟩ := ih hml hmem
          exact ⟨x, by simp [hx], hfx⟩

/-! ### Lemmas about `randint` -/

theorem randint_bounds {lo hi : Int} {draw : Nat} {v : Int}
    (h : randint lo hi draw = some v) : lo ≤ v ∧ v ≤ hi := by
  unfold randint at h
  split at h
  · next hle =>
    have hv : lo + (draw : Int) % (hi - lo + 1) = v := by
      simpa using h
    have h1 : 0 ≤ (draw : Int) % (hi - lo + 1) := Int.emod_nonneg _ (by omega)
    have h2 : (draw : Int) % (hi - lo + 1) < hi - lo + 1 :=
      Int.emod_lt_of_pos _ (by omega)
    omega
  · simp at h

theorem randint_hits {lo hi t : Int} (h1 : lo ≤ t) (h2 : t ≤ hi) :
    randint lo hi ((t - lo).toNat) = some t := by
  unfold randint
  rw [if_pos (le_trans h1 h2)]
  have hcast : (((t - lo).toNat : Nat) : Int) = t - lo :=
    Int.toNat_of_nonneg (by omega)
  rw [hcast, Int.emod_eq_of_lt (by omega) (by omega)]
  congr 1
  omega

theorem randint_none {lo hi : Int} (h : hi < lo) (draw : Nat) :
    randint lo hi draw = none := by
  unfold randint
  rw [if_neg (by omega)]

/-! ### Lemmas about `genValues` -/

theorem genValues_length {N R : Nat} {g : Nat → Nat} {vs : List Int}
    (h : genValues N R g = some vs) : vs.length = N := by
  have := optMap_length h
  simpa using this

theorem genValues_some {N R : Nat} (hR : 2 ≤ R) (g : Nat → Nat) :
    ∃ vs, genValues N R g = some vs := by
  apply optMap_isSome
  intro i _
  have h1 : (1 : Int) ≤ (R : Int) - 1 := by
    have : (2 : Int) ≤ (R : Int) := by exact_mod_cast hR
    omega
  simp [randint, h1]

theorem genValues_bounds {N R : Nat} {g : Nat → Nat} {vs : List Int}
    (h : genValues N R g = some vs) {v : Int} (hv : v ∈ vs) :
    1 ≤ v ∧ v ≤ (R : Int) - 1 := by
  obtain ⟨i, _, hi⟩ := optMap_mem h hv
  exact randint_bounds hi

theorem genValues_none {N R : Nat} (hN : 1 ≤ N) (hR : R < 2) (g : Nat → Nat) :
    genValues N R g = none := by
  obtain ⟨n, rfl⟩ : ∃ n, N = n + 1 := ⟨N - 1, by omega⟩
  have hRi : (R : Int) ≤ 1 := by exact_mod_cast Nat.lt_succ_iff.mp hR
  have h0 : randint 1 ((R : Int) - 1) (g 0) = none := randint_none (by omega) _
  simp [genValues, List.range_succ_eq_map, optMap, h0]

/-! ### Lemmas about `dictFind`, `dictInsert` and `dictOf` -/

theorem dictFind_append_of_none {l₁ : List (Int × Int)} {k : Int}
    (h : dictFind l₁ k = none) (l₂ : List (Int × Int)) :
    dictFind (l₁ ++ l₂) k = dictFind l₂ k := by
  induction l₁ with
  | nil => rfl
  | cons p rest ih =>
    obtain ⟨a, b⟩ := p
    simp only [dictFind] at h ⊢
    split at h
    · exact absurd h (by simp)
    · next hne =>
      rw [if_neg hne]
      exact ih h

theorem dictFind_append_of_some {l₁ : List (Int × Int)} {k v : Int}
    (h : dictFind l₁ k = some v) (l₂ : List (Int × Int)) :
    dictFind (l₁ ++ l₂) k = some v := by
  induction l₁ with
  | nil => simp [dictFind] at h
  | cons p rest ih =>
    obtain ⟨a, b⟩ := p
    simp only [dictFind] at h ⊢
    split at h
    · next heq => rw [if_pos heq]; exact h
    · next hne => rw [if_neg hne]; exact ih h

theorem dictFind_mem {d : List (Int × Int)} {k v : Int}
    (h : dictFind d k = some v) : (k, v) ∈ d := by
  induction d with
  | nil => simp [dictFind] at h
  | cons p rest ih =>
    obtain ⟨a, b⟩ := p
    simp only [dictFind] at h
    split at h
    · next heq =>
      obtain rfl : b = v := by simpa using h
      subst heq
      exact List.mem_cons_self _ _
    · exact List.mem_cons_of_mem _ (ih h)

theorem dictInsert_of_not_mem {d : List (Int × Int)} {k : Int}
    (h : ∀ p ∈ d, p.1 ≠ k) (v : Int) : dictInsert d k v = d ++ [(k, v)] := by
  unfold dictInsert
  rw [if_neg]
  simp only [List.any_eq_true, beq_iff_eq, not_exists, not_and]
  exact h

theorem dictOf_length (values : List Int) (n : Nat) :
    (dictOf values n).length = n := by
  simp [dictOf]

theorem dictOf_succ (values : List Int) (n : Nat) :
    dictOf values (n + 1) = dictOf values n ++ [((n : Int), values.getD n 0)] := by
  simp [dictOf, List.range_succ]

theorem dictOf_key_lt {values : List Int} {n : Nat} {p : Int × Int}
    (hp : p ∈ dictOf values n) : ∃ i : Nat, i < n ∧ p = ((i : Int), values.getD i 0) := by
  simp only [dictOf, List.mem_map, List.mem_range] at hp
  obtain ⟨i, hi, rfl⟩ := hp
  exact ⟨i, hi, rfl⟩

theorem dictFind_dictOf_none {n : Nat} {k : Int}
    (hk : ∀ i : Nat, i < n → (i : Int) ≠ k) (values : List Int) :
    dictFind (dictOf values n) k = none := by
  induction n with
  | zero => rfl
  | succ m ih =>
    rw [dictOf_succ]
    rw [dictFind_append_of_none (ih (fun i hi => hk i (by omega)))]
    simp only [dictFind]
    rw [if_neg (hk m (by omega))]

theorem dictFind_dictOf_lt {i n : Nat} (h : i < n) (values : List Int) :
    dictFind (dictOf values n) ((i : Int)) = some (values.getD i 0) := by
  induction n with
  | zero => omega
  | succ m ih =>
    rw [dictOf_succ]
    rcases Nat.lt_or_ge i m with him | him
    · exact dictFind_append_of_some (ih him) _
    · have : i = m := by omega
      subst this
      have hnone : dictFind (dictOf values i) ((i : Int)) = none := by
        apply dictFind_dictOf_none
        intro j hj
        have : j ≠ i := by omega
        exact_mod_cast fun hc => this (by exact_mod_cast hc)
      rw [dictFind_append_of_none hnone]
      simp [dictFind]

/-! ### Lemmas about `insertStep` and `insertLoop` -/

theorem insertLoop_zero (s : LoopState) : insertLoop s 0 = some s := rfl

theorem insertLoop_succ (s : LoopState) (n : Nat) :
    insertLoop s (n + 1) = (insertLoop s n).bind (fun t => insertStep t n) := by
  unfold insertLoop
  rw [List.range_succ, List.foldl_append]
  rfl

theorem insertStep_frame {s t : LoopState} {i : Nat} (h : insertStep s i = some t) :
    t.keys = s.keys ∧ t.values = s.values ∧
      ∃ k v, s.keys[i]? = some k ∧ s.values[i]? = some v ∧
        t.dictionary = dictInsert s.dictionary k v := by
  unfold insertStep at h
  cases hk : s.keys[i]? with
  | none => rw [hk] at h; simp at h
  | some k =>
    rw [hk] at h
    cases hv : s.values[i]? with
    | none => rw [hv] at h; simp at h
    | some v =>
      rw [hv] at h
      have h' : LoopState.mk s.keys s.values (dictInsert s.dictionary k v) = t := by
        simpa using h
      subst h'
      exact ⟨rfl, rfl, k, v, rfl, rfl, rfl⟩

theorem insertLoop_frame {s s' : LoopState} {N : Nat}
    (h : insertLoop s N = some s') : s'.keys = s.keys ∧ s'.values = s.values := by
  induction N generalizing s' with
  | zero =>
    rw [insertLoop_zero] at h
    obtain rfl : s = s' := by simpa using h
    exact ⟨rfl, rfl⟩
  | succ n ih =>
    rw [insertLoop_succ] at h
    cases ht : insertLoop s n with
    | none => rw [ht] at h; simp at h
    | some t =>
      rw [ht] at h
      simp only [Option.some_bind] at h
      obtain ⟨hk, hv, _⟩ := insertStep_frame h
      obtain ⟨hk', hv'⟩ := ih ht
      exact ⟨hk.trans hk', hv.trans hv'⟩

theorem keysOf_getElem {N i : Nat} (h : i < N) : (keysOf N)[i]? = some ((i : Int)) := by
  simp [keysOf, List.getElem?_range h]

theorem getElem_eq_getD {l : List Int} {i : Nat} (h : i < l.length) :
    l[i]? = some (l.getD i 0) := by
  simp [List.getElem?_eq_getElem h]

theorem insertLoop_dictOf {N : Nat} {values : List Int} (hlen : values.length = N)
    {n : Nat} (hn : n ≤ N) :
    insertLoop ⟨keysOf N, values, []⟩ n = some ⟨keysOf N, values, dictOf values n⟩ := by
  induction n with
  | zero => rfl
  | succ m ih =>
    have hk : (keysOf N)[m]? = some ((m : Int)) := keysOf_getElem (by omega)
    have hv : values[m]? = some (values.getD m 0) := getElem_eq_getD (by omega)
    have hnot : ∀ p ∈ dictOf values m, p.1 ≠ ((m : Int)) := by
      intro p hp
      obtain ⟨i, hi, rfl⟩ := dictOf_key_lt hp
      have him : i ≠ m := by omega
      show (i : Int) ≠ (m : Int)
      exact_mod_cast him
    have hstep : insertStep ⟨keysOf N, values, dictOf values m⟩ m
        = some ⟨keysOf N, values, dictOf values (m + 1)⟩ := by
      show (do
          let k ← (keysOf N)[m]?
          let v ← values[m]?
          pure (⟨keysOf N, values, dictInsert (dictOf values m) k v⟩ : LoopState)) =
        some ⟨keysOf N, values, dictOf values (m + 1)⟩
      rw [hk, hv]
      show some (⟨keysOf N, values,
          dictInsert (dictOf values m) ((m : Int)) (values.getD m 0)⟩ : LoopState) =
        some ⟨keysOf N, values, dictOf values (m + 1)⟩
      rw [dictInsert_of_not_mem hnot, ← dictOf_succ]
    rw [insertLoop_succ, ih (by omega), Option.some_bind, hstep]

/-! ### Characterisation of a completed run of `main` -/

theorem pyMain_eq {N R : Nat} {g : Nat → Nat} (clock : Nat → Int) {values : List Int}
    (hv : genValues N R g = some values) :
    pyMain N R g clock = some ⟨⟨keysOf N, values, dictOf values N⟩,
      [OutLine.attempt N, OutLine.opTook (clock 2 - clock 1),
       OutLine.dictSize N, OutLine.totalTime (clock 3 - clock 0)]⟩ := by
  have hlen : values.length = N := genValues_length hv
  have hloop := insertLoop_dictOf hlen (le_refl N)
  simp [pyMain, hv, hloop, dictOf_length]

theorem pyMain_some_inv {N R : Nat} {g : Nat → Nat} {clock : Nat → Int}
    {out : RunOutput} (h : pyMain N R g clock = some out) :
    ∃ values, genValues N R g = some values ∧
      out = ⟨⟨keysOf N, values, dictOf values N⟩,
        [OutLine.attempt N, OutLine.opTook (clock 2 - clock 1),
         OutLine.dictSize N, OutLine.totalTime (clock 3 - clock 0)]⟩ := by
  cases hv : genValues N R g with
  | none => simp [pyMain, hv] at h
  | some values =>
    refine ⟨values, rfl, ?_⟩
    rw [pyMain_eq clock hv] at h
    exact (Option.some_inj.mp h).symm

theorem pyMain_dictionary_length {N R : Nat} {g : Nat → Nat} {clock : Nat → Int}
    {out : RunOutput} (h : pyMain N R g clock = some out) :
    out.state.dictionary.length = N := by
  obtain ⟨values, _, rfl⟩ := pyMain_some_inv h
  exact dictOf_length values N

/-! ### Claim theorems -/

/-- C1: after the insertion loop the dictionary contains exactly the N
supplied pairs: for every index `i < N` it maps `keys[i]` (the integer
`i`) to `values[i]`, and it binds no key outside the supplied keys. -/
theorem C1_dictionary_contains_exactly_supplied_pairs
    {N R : Nat} {g : Nat → Nat} {clock : Nat → Int} {out : RunOutput}
    (h : pyMain N R g clock = some out) :
    (∀ i : Nat, i < N →
      dictFind out.state.dictionary ((i : Int)) = out.state.values[i]?) ∧
    (∀ k : Int, k ∉ keysOf N → dictFind out.state.dictionary k = none) := by
  obtain ⟨values, hv, rfl⟩ := pyMain_some_inv h
  have hlen : values.length = N := genValues_length hv
  constructor
  · intro i hi
    rw [dictFind_dictOf_lt hi]
    exact (getElem_eq_getD (by omega)).symm
  · intro k hk
    apply dictFind_dictOf_none
    intro i hi hik
    apply hk
    rw [← hik]
    simp only [keysOf, List.mem_map]
    exact ⟨i, List.mem_range.mpr hi, rfl⟩

/-- Witness for C1 at `N = 2`, `R = 3`. -/
theorem C1_witness :
    pyMain 2 3 (fun i => i) (fun _ => (0 : Int)) =
      some ⟨⟨[0, 1], [1, 2], [(0, 1), (1, 2)]⟩,
        [OutLine.attempt 2, OutLine.opTook 0, OutLine.dictSize 2,
         OutLine.totalTime 0]⟩ ∧
    ((∀ i : Nat, i < 2 →
        dictFind [(0, 1), (1, 2)] ((i : Int)) = [(1 : Int), 2][i]?) ∧
     (∀ k : Int, k ∉ keysOf 2 → dictFind [(0, 1), (1, 2)] k = none)) :=
  ⟨by decide, @C1_dictionary_contains_exactly_supplied_pairs 2 3 (fun i => i)
    (fun _ => (0 : Int))
    ⟨⟨[0, 1], [1, 2], [(0, 1), (1, 2)]⟩,
      [OutLine.attempt 2, OutLine.opTook 0, OutLine.dictSize 2,
       OutLine.totalTime 0]⟩ (by decide)⟩

/-- C2 counterexample: with `R = 2` the code draws `random.randint(1, 1)`,
so the single stored value is `1 = R - 1`, which violates the claimed
strict upper bound `v < R - 1`. -/
theorem C2_counterexample :
    (do
      let o ← pyMain 1 2 (fun _ => 0) (fun _ => (0 : Int))
      dictFind o.state.dictionary 0) = some 1 ∧
    ¬ ((1 : Int) < (2 : Int) - 1) := ⟨by decide, by decide⟩

/-- C2 (amended): every value stored in the dictionary lies in the CLOSED
interval `[1, R-1]`: for every key `k` bound to `v`, `1 ≤ v ∧ v ≤ R - 1`
(the upper endpoint is attainable, so the half-open bound `v < R - 1`
fails). -/
theorem C2_values_in_closed_interval
    {N R : Nat} {g : Nat → Nat} {clock : Nat → Int} {out : RunOutput}
    (h : pyMain N R g clock = some out) {k v : Int}
    (hkv : dictFind out.state.dictionary k = some v) :
    1 ≤ v ∧ v ≤ (R : Int) - 1 := by
  obtain ⟨values, hv, rfl⟩ := pyMain_some_inv h
  have hlen : values.length = N := genValues_length hv
  obtain ⟨i, hi, heq⟩ := dictOf_key_lt (dictFind_mem hkv)
  injection heq with hk1 hv1
  subst hv1
  have hvmem : values.getD i 0 ∈ values :=
    List.getElem?_mem (getElem_eq_getD (by omega))
  exact genValues_bounds hv hvmem

/-- Witness for the amended C2 at `N = 1`, `R = 3`, stored pair `(0, 1)`. -/
theorem C2_witness :
    (pyMain 1 3 (fun _ => 0) (fun _ => (0 : Int)) =
      some ⟨⟨[0], [1], [(0, 1)]⟩,
        [OutLine.attempt 1, OutLine.opTook 0, OutLine.dictSize 1,
         OutLine.totalTime 0]⟩ ∧
     dictFind [((0 : Int), (1 : Int))] 0 = some 1) ∧
    (1 ≤ (1 : Int) ∧ (1 : Int) ≤ (3 : Int) - 1) :=
  ⟨⟨by decide, by decide⟩,
    @C2_values_in_closed_interval 1 3 (fun _ => 0) (fun _ => (0 : Int))
      ⟨⟨[0], [1], [(0, 1)]⟩,
        [OutLine.attempt 1, OutLine.opTook 0, OutLine.dictSize 1,
         OutLine.totalTime 0]⟩ (by decide) 0 1 (by decide)⟩

/-- C3: for every `N` and every `R ≥ 2` the run completes and the final
dictionary has exactly `N` entries, because the keys are pairwise
distinct. -/
theorem C3_dictionary_size_eq_N (N R : Nat) (hR : 2 ≤ R) (g : Nat → Nat)
    (clock : Nat → Int) :
    ∃ out, pyMain N R g clock = some out ∧ out.state.dictionary.length = N := by
  obtain ⟨values, hv⟩ := genValues_some hR g
  exact ⟨_, pyMain_eq clock hv, dictOf_length values N⟩

/-- Witness for C3 at `N = 3`, `R = 2`. -/
theorem C3_witness :
    2 ≤ 2 ∧ ∃ out, pyMain 3 2 (fun i => i) (fun _ => (0 : Int)) = some out ∧
      out.state.dictionary.length = 3 :=
  ⟨by decide, C3_dictionary_size_eq_N 3 2 (by decide) (fun i => i) (fun _ => (0 : Int))⟩

/-- C4 counterexample: a normal run prints FOUR lines (the code has four
`print` calls), not three as claimed; shown on the concrete run `N = 2`,
`R = 3`. -/
theorem C4_counterexample :
    (pyMain 2 3 (fun i => i) (fun _ => (0 : Int))).map (fun o => o.lines.length) =
      some 4 ∧ (4 : Nat) ≠ 3 := ⟨by decide, by decide⟩

/-- C4 (amended): on a normal run the program writes exactly FOUR lines of
human-readable text to standard output, carrying the intended key count,
the insertion elapsed seconds, the map size, and the total elapsed
seconds, in that order. -/
theorem C4_output_is_four_lines
    {N R : Nat} {g : Nat → Nat} {clock : Nat → Int} {out : RunOutput}
    (h : pyMain N R g clock = some out) :
    out.lines = [OutLine.attempt N, OutLine.opTook (clock 2 - clock 1),
      OutLine.dictSize out.state.dictionary.length,
      OutLine.totalTime (clock 3 - clock 0)] ∧
    out.lines.length = 4 := by
  obtain ⟨values, hv, rfl⟩ := pyMain_some_inv h
  exact ⟨by simp [dictOf_length], rfl⟩

/-- Witness for the amended C4 at `N = 1`, `R = 2`. -/
theorem C4_witness :
    pyMain 1 2 (fun _ => 0) (fun i => (i : Int)) =
      some ⟨⟨[0], [1], [(0, 1)]⟩,
        [OutLine.attempt 1, OutLine.opTook 1, OutLine.dictSize 1,
         OutLine.totalTime 3]⟩ ∧
    ([OutLine.attempt 1, OutLine.opTook 1, OutLine.dictSize 1,
        OutLine.totalTime 3] =
      [OutLine.attempt 1, OutLine.opTook ((2 : Int) - 1), OutLine.dictSize 1,
        OutLine.totalTime ((3 : Int) - 0)] ∧
     ([OutLine.attempt 1, OutLine.opTook 1, OutLine.dictSize 1,
        OutLine.totalTime 3] : List OutLine).length = 4) :=
  ⟨by decide, @C4_output_is_four_lines 1 2 (fun _ => 0) (fun i => (i : Int))
    ⟨⟨[0], [1], [(0, 1)]⟩,
      [OutLine.attempt 1, OutLine.opTook 1, OutLine.dictSize 1,
       OutLine.totalTime 3]⟩ (by decide)⟩

/-- C5: if successive clock readings are monotonically non-decreasing,
the reported insertion elapsed time is non-negative and at most the
reported total elapsed time. -/
theorem C5_insertion_time_le_total_time
    {N R : Nat} {g : Nat → Nat} {clock : Nat → Int}
    (h01 : clock 0 ≤ clock 1) (h12 : clock 1 ≤ clock 2)
    (h23 : clock 2 ≤ clock 3)
    {out : RunOutput} (h : pyMain N R g clock = some out) :
    ∃ t T : Int, OutLine.opTook t ∈ out.lines ∧
      OutLine.totalTime T ∈ out.lines ∧ 0 ≤ t ∧ t ≤ T := by
  obtain ⟨values, hv, rfl⟩ := pyMain_some_inv h
  refine ⟨clock 2 - clock 1, clock 3 - clock 0, by simp, by simp, ?_, ?_⟩
  · omega
  · omega

/-- Witness for C5 at `N = 1`, `R = 2` with the clock reading `i` at the
i-th read. -/
theorem C5_witness :
    ((0 : Int) ≤ 1 ∧ (1 : Int) ≤ 2 ∧ (2 : Int) ≤ 3) ∧
    ∃ t T : Int,
      OutLine.opTook t ∈ [OutLine.attempt 1, OutLine.opTook 1,
        OutLine.dictSize 1, OutLine.totalTime 3] ∧
      OutLine.totalTime T ∈ [OutLine.attempt 1, OutLine.opTook 1,
        OutLine.dictSize 1, OutLine.totalTime 3] ∧
      0 ≤ t ∧ t ≤ T :=
  ⟨⟨by decide, by decide, by decide⟩,
    @C5_insertion_time_le_total_time 1 2 (fun _ => 0) (fun i => (i : Int))
      (by decide) (by decide) (by decide)
      ⟨⟨[0], [1], [(0, 1)]⟩,
        [OutLine.attempt 1, OutLine.opTook 1, OutLine.dictSize 1,
         OutLine.totalTime 3]⟩ (by decide)⟩

/-- C6: with `N = 0` the run completes with no error, for every range
constant: the key list, value list and dictionary are all empty. -/
theorem C6_zero_keys_empty_dictionary (R : Nat) (g : Nat → Nat)
    (clock : Nat → Int) :
    ∃ out, pyMain 0 R g clock = some out ∧ out.state.keys = [] ∧
      out.state.values = [] ∧ out.state.dictionary = [] := by
  have hv : genValues 0 R g = some [] := rfl
  exact ⟨_, pyMain_eq clock hv, rfl, rfl, rfl⟩

/-- C7: two completed runs with the same `N` produce dictionaries of equal
size, whatever random values (and range constants and clocks) each drew. -/
theorem C7_sizes_agree_across_runs
    {N R₁ R₂ : Nat} {g₁ g₂ : Nat → Nat} {c₁ c₂ : Nat → Int}
    {o₁ o₂ : RunOutput}
    (h₁ : pyMain N R₁ g₁ c₁ = some o₁) (h₂ : pyMain N R₂ g₂ c₂ = some o₂) :
    o₁.state.dictionary.length = o₂.state.dictionary.length := by
  rw [pyMain_dictionary_length h₁, pyMain_dictionary_length h₂]

/-- Witness for C7: two runs with `N = 2` drawing different values. -/
theorem C7_witness :
    pyMain 2 3 (fun i => i) (fun _ => (0 : Int)) =
      some ⟨⟨[0, 1], [1, 2], [(0, 1), (1, 2)]⟩,
        [OutLine.attempt 2, OutLine.opTook 0, OutLine.dictSize 2,
         OutLine.totalTime 0]⟩ ∧
    pyMain 2 5 (fun _ => 7) (fun _ => (0 : Int)) =
      some ⟨⟨[0, 1], [4, 4], [(0, 4), (1, 4)]⟩,
        [OutLine.attempt 2, OutLine.opTook 0, OutLine.dictSize 2,
         OutLine.totalTime 0]⟩ ∧
    ([((0 : Int), (1 : Int)), (1, 2)] : List (Int × Int)).length =
      ([((0 : Int), (4 : Int)), (1, 4)] : List (Int × Int)).length :=
  ⟨by decide, by decide,
    @C7_sizes_agree_across_runs 2 3 5 (fun i => i) (fun _ => 7)
      (fun _ => (0 : Int)) (fun _ => (0 : Int))
      ⟨⟨[0, 1], [1, 2], [(0, 1), (1, 2)]⟩,
        [OutLine.attempt 2, OutLine.opTook 0, OutLine.dictSize 2,
         OutLine.totalTime 0]⟩
      ⟨⟨[0, 1], [4, 4], [(0, 4), (1, 4)]⟩,
        [OutLine.attempt 2, OutLine.opTook 0, OutLine.dictSize 2,
         OutLine.totalTime 0]⟩ (by decide) (by decide)⟩

/-- C8: the insertion loop reads but never modifies the two generated
sequences: after a completed run the key sequence still equals
`[0, 1, ..., N-1]` and the value sequence still equals exactly what the
generator produced. -/
theorem C8_sequences_survive_loop_unchanged
    {N R : Nat} {g : Nat → Nat} {clock : Nat → Int} {out : RunOutput}
    (h : pyMain N R g clock = some out) :
    out.state.keys = keysOf N ∧ genValues N R g = some out.state.values := by
  obtain ⟨values, hv, rfl⟩ := pyMain_some_inv h
  exact ⟨rfl, hv⟩

/-- Witness for C8 at `N = 2`, `R = 4`. -/
theorem C8_witness :
    pyMain 2 4 (fun i => i + 1) (fun _ => (0 : Int)) =
      some ⟨⟨[0, 1], [2, 3], [(0, 2), (1, 3)]⟩,
        [OutLine.attempt 2, OutLine.opTook 0, OutLine.dictSize 2,
         OutLine.totalTime 0]⟩ ∧
    (([((0 : Int)), 1] : List Int) = keysOf 2 ∧
     genValues 2 4 (fun i => i + 1) = some [2, 3]) :=
  ⟨by decide, @C8_sequences_survive_loop_unchanged 2 4 (fun i => i + 1)
    (fun _ => (0 : Int))
    ⟨⟨[0, 1], [2, 3], [(0, 2), (1, 3)]⟩,
      [OutLine.attempt 2, OutLine.opTook 0, OutLine.dictSize 2,
       OutLine.totalTime 0]⟩ (by decide)⟩

/-- C9: for every `R ≥ 2` the value generator's range is the closed
interval `[1, R-1]`: every generated value `v` satisfies
`1 ≤ v ∧ v ≤ R - 1`, and the upper endpoint `R - 1` is attained by some
random draw. -/
theorem C9_value_range_is_closed_interval (R : Nat) (hR : 2 ≤ R) :
    (∀ (N : Nat) (g : Nat → Nat) (vs : List Int),
      genValues N R g = some vs → ∀ v ∈ vs, 1 ≤ v ∧ v ≤ (R : Int) - 1) ∧
    (∃ draw : Nat, randint 1 ((R : Int) - 1) draw = some ((R : Int) - 1)) := by
  have hRi : (2 : Int) ≤ (R : Int) := by exact_mod_cast hR
  constructor
  · intro N g vs h v hv
    exact genValues_bounds h hv
  · refine ⟨(((R : Int) - 1) - 1).toNat, ?_⟩
    exact randint_hits (by omega) (le_refl _)

/-- Witness for C9 at `R = 5`. -/
theorem C9_witness :
    2 ≤ 5 ∧
    ((∀ (N : Nat) (g : Nat → Nat) (vs : List Int),
        genValues N 5 g = some vs → ∀ v ∈ vs, 1 ≤ v ∧ v ≤ (5 : Int) - 1) ∧
     (∃ draw : Nat, randint 1 ((5 : Int) - 1) draw = some ((5 : Int) - 1))) :=
  ⟨by decide, C9_value_range_is_closed_interval 5 (by decide)⟩

/-- C10: with `R < 2` and `N ≥ 1` the very first random draw is over the
empty interval `[1, R-1]` and raises, so the run aborts (no dictionary is
produced): the program completes normally only when `R ≥ 2` or `N = 0`. -/
theorem C10_aborts_when_range_lt_two
    {N R : Nat} (hN : 1 ≤ N) (hR : R < 2) (g : Nat → Nat)
    (clock : Nat → Int) :
    pyMain N R g clock = none := by
  simp [pyMain, genValues_none hN hR g]

/-- Witness for C10 at `N = 1`, `R = 1`. -/
theorem C10_witness :
    (1 ≤ 1 ∧ 1 < 2) ∧ pyMain 1 1 (fun _ => 0) (fun _ => (0 : Int)) = none :=
  ⟨⟨by decide, by decide⟩,
    @C10_aborts_when_range_lt_two 1 1 (by decide) (by decide)
      (fun _ => 0) (fun _ => (0 : Int))⟩
